import Mathlib

/-!
Verification of `util_lib` (files `lib_py/air_humidity.py` and
`lib_py/water_glycol_density_c_th.py`) against its specification.

The table/polynomial component (`water_glycol_density_c_th.py`) works with
exact decimal constants and piecewise-linear interpolation, so it is embedded
over `ℚ`.  `np.interp(x, xp, fp)` clamps to `fp[0]` below `xp[0]`, to the last
value above `xp[-1]`, and interpolates linearly in between; `interp` below
reproduces exactly that.  `np.poly1d` evaluation is embedded by Horner.
NumPy float64 division yields a non-finite value (no exception) when the
denominator is zero, so `rho_water` is embedded with total field division.

The humid-air component (`air_humidity.py`) uses `math.exp` / `math.log` on
plain Python floats, embedded over `ℝ`.  Python raises for the failure modes
that occur there: `assert` raises `AssertionError`, `math.log` raises
`ValueError: math domain error` on a non-positive argument, and float
division raises `ZeroDivisionError` on a zero denominator.  All of these are
modelled as `none` of an `Option ℝ` result; every Python `/` in that file is
embedded as the fallible `fdiv`, and every `math.log` as the fallible `mlog`.
-/

namespace UtilLib

/-- `np.interp` on a list of `(x, y)` pairs with strictly increasing `x`:
clamp below the first abscissa and above the last one, linear interpolation
on each bracketing interval.  The empty-table case (`0`) is unreachable for
the fixed tables of the source. -/
def interp (theta : ℚ) : List (ℚ × ℚ) → ℚ
  | [] => 0
  | [p] => p.2
  | p :: q :: rest =>
      if theta ≤ p.1 then p.2
      else if theta ≤ q.1 then p.2 + (theta - p.1) * (q.2 - p.2) / (q.1 - p.1)
      else interp theta (q :: rest)

/-- The table of `c_th_water`: specific heat capacity of water, 0 °C … 100 °C. -/
def c_th_water_table : List (ℚ × ℚ) :=
  [(0, 4217.7), (10, 4192.2), (20, 4181.9), (30, 4178.5), (40, 4178.6),
   (50, 4180.7), (60, 4184.4), (70, 4189.6), (80, 4196.4), (90, 4205.1),
   (100, 4216.0)]

/-- `c_th_water(theta)`: piecewise linear interpolation of the specific heat
capacity of water (J/kg/K), `np.interp(theta, t_ref, c_ref)`. -/
def c_th_water (theta : ℚ) : ℚ := interp theta c_th_water_table

/-- The table of `rho_glykol60`: density of the 60 % glycol/water mixture,
-40 °C … 110 °C. -/
def rho_glykol60_table : List (ℚ × ℚ) :=
  [(-40, 1.120010), (-30, 1.114359), (-20, 1.108554), (-10, 1.102760),
   (0, 1.096879), (10, 1.090945), (20, 1.085007), (30, 1.078812),
   (40, 1.072367), (50, 1.065847), (60, 1.059047), (70, 1.051983),
   (80, 1.044773), (90, 1.037459), (100, 1.030002), (110, 1.022522)]

/-- `rho_glykol60(theta)`: piecewise linear interpolation of the density
(g/cm³) of a 60 % by volume glycol/water mixture. -/
def rho_glykol60 (theta : ℚ) : ℚ := interp theta rho_glykol60_table

/-- The table of `c_th_glykol60`: specific heat capacity of the 60 %
glycol/water mixture, -40 °C … 105 °C. -/
def c_th_glykol60_table : List (ℚ × ℚ) :=
  [(-40, 2703.30), (-35, 2749.60), (-30, 2793.74), (-25, 2838.47),
   (-20, 2879.21), (-15, 2919.42), (-10, 2955.72), (-5, 2992.30),
   (0, 3026.66), (5, 3059.85), (10, 3092.32), (15, 3122.75), (20, 3152.32),
   (25, 3181.33), (30, 3208.28), (35, 3234.92), (40, 3259.96), (45, 3285.54),
   (50, 3309.36), (55, 3331.49), (60, 3354.35), (65, 3375.35), (70, 3396.78),
   (75, 3415.90), (80, 3435.59), (85, 3454.44), (90, 3471.16), (95, 3487.49),
   (100, 3503.92), (105, 3517.87)]

/-- `c_th_glykol60(theta)`: piecewise linear interpolation of the specific
heat capacity (J/kg/K) of a 60 % by volume glycol/water mixture. -/
def c_th_glykol60 (theta : ℚ) : ℚ := interp theta c_th_glykol60_table

/-- Numerator of `rho_water`: the 5th-degree `np.poly1d` evaluated by Horner,
coefficients highest degree first. -/
def rho_water_num (theta : ℚ) : ℚ :=
  ((((-2.8103006e-10 * theta + 1.0584601e-7) * theta + -4.6241757e-5) * theta
      + -7.9905127e-3) * theta + 1.6952577e1) * theta + 9.9983952e2

/-- Denominator of `rho_water`: the 1st-degree `np.poly1d`. -/
def rho_water_denom (theta : ℚ) : ℚ := 1.6887200e1 * theta + 1000.0

/-- `rho_water(theta)`: density of water in g/cm³, ratio of the two
polynomials.  The source performs no domain check; NumPy float64 division by
zero produces a non-finite value instead of raising, embedded here as the
total field division of `ℚ`. -/
def rho_water (theta : ℚ) : ℚ := rho_water_num theta / rho_water_denom theta

/-- Below (or at) the first abscissa, `interp` returns the first ordinate. -/
lemma interp_le_first (theta : ℚ) (p : ℚ × ℚ) (l : List (ℚ × ℚ))
    (h : theta ≤ p.1) : interp theta (p :: l) = p.2 := by
  cases l with
  | nil => rfl
  | cons q rest => simp only [interp, if_pos h]

/-- Above (or at) the last abscissa of a strictly sorted table, `interp`
returns the last ordinate. -/
lemma interp_ge_last (theta : ℚ) (l : List (ℚ × ℚ)) (p : ℚ × ℚ)
    (hsort : List.Pairwise (fun a b => a.1 < b.1) (l ++ [p]))
    (h : p.1 ≤ theta) : interp theta (l ++ [p]) = p.2 := by
  induction l with
  | nil => rfl
  | cons a l ih =>
    obtain ⟨ha, htail⟩ := List.pairwise_cons.mp hsort
    have hap : a.1 < p.1 := ha p (by simp)
    cases l with
    | nil =>
      simp only [List.nil_append, List.cons_append, interp]
      rw [if_neg (by linarith)]
      rcases le_or_lt theta p.1 with hle | hlt
      · have hth : theta = p.1 := le_antisymm hle h
        rw [if_pos hle, hth]
        have hne : p.1 - a.1 ≠ 0 := by intro h0; apply absurd hap; linarith [sub_eq_zero.mp h0]
        field_simp
      · rw [if_neg (by linarith)]
    | cons b l' =>
      obtain ⟨hb, _⟩ := List.pairwise_cons.mp htail
      have hbp : b.1 < p.1 := hb p (by simp)
      simp only [List.cons_append, interp]
      rw [if_neg (by linarith), if_neg (by linarith)]
      exact ih htail

/-- On a bracketing interval `[p.1, q.1]` of adjacent points of a strictly
sorted table, `interp` returns the linear interpolant between `p` and `q`. -/
lemma interp_bracket (theta : ℚ) (pre : List (ℚ × ℚ)) (p q : ℚ × ℚ)
    (post : List (ℚ × ℚ))
    (hsort : List.Pairwise (fun a b => a.1 < b.1) (pre ++ p :: q :: post))
    (h1 : p.1 ≤ theta) (h2 : theta ≤ q.1) :
    interp theta (pre ++ p :: q :: post) =
      p.2 + (theta - p.1) * (q.2 - p.2) / (q.1 - p.1) := by
  induction pre with
  | nil =>
    simp only [List.nil_append, interp]
    rcases le_or_lt theta p.1 with hle | hlt
    · have hth : theta = p.1 := le_antisymm hle h1
      rw [if_pos hle, hth]
      simp
    · rw [if_neg (by linarith), if_pos h2]
  | cons a pre' ih =>
    obtain ⟨ha, htail⟩ := List.pairwise_cons.mp hsort
    have hap : a.1 < p.1 := ha p (by simp)
    cases pre' with
    | nil =>
      simp only [List.nil_append, List.cons_append, interp]
      rw [if_neg (by linarith)]
      rcases le_or_lt theta p.1 with hle | hlt
      · have hth : theta = p.1 := le_antisymm hle h1
        rw [if_pos hle, hth]
        have hne : p.1 - a.1 ≠ 0 := by intro h0; apply absurd hap; linarith [sub_eq_zero.mp h0]
        field_simp
      · rw [if_neg (by linarith)]
        exact ih htail
    | cons b pre'' =>
      obtain ⟨hb, _⟩ := List.pairwise_cons.mp htail
      have hbp : b.1 < p.1 := hb p (by simp)
      simp only [List.cons_append, interp]
      rw [if_neg (by linarith), if_neg (by linarith)]
      exact ih htail

/-- On a strictly sorted table whose ordinates never increase from one point
to the next, `interp` never exceeds the first ordinate. -/
lemma interp_le_head (t : ℚ) : ∀ (l : List (ℚ × ℚ)) (p : ℚ × ℚ),
    List.Pairwise (fun a b => a.1 < b.1) (p :: l) →
    List.Chain' (fun a b => b.2 ≤ a.2) (p :: l) →
    interp t (p :: l) ≤ p.2 := by
  intro l
  induction l with
  | nil => intro p _ _; exact le_of_eq rfl
  | cons q rest ih =>
    intro p hsort hchain
    obtain ⟨hpq, hchain'⟩ := List.chain'_cons.mp hchain
    obtain ⟨hall, hsort'⟩ := List.pairwise_cons.mp hsort
    have hpq1 : p.1 < q.1 := hall q (by simp)
    simp only [interp]
    rcases le_or_lt t p.1 with h | h
    · rw [if_pos h]
    · rw [if_neg (not_le.mpr h)]
      rcases le_or_lt t q.1 with h' | h'
      · rw [if_pos h']
        have hs : (q.2 - p.2) / (q.1 - p.1) ≤ 0 :=
          div_nonpos_of_nonpos_of_nonneg (by linarith) (by linarith)
        have hm : (t - p.1) * ((q.2 - p.2) / (q.1 - p.1)) ≤ 0 :=
          mul_nonpos_of_nonneg_of_nonpos (by linarith) hs
        rw [mul_div_assoc]
        linarith
      · rw [if_neg (not_le.mpr h')]
        calc interp t (q :: rest) ≤ q.2 := ih q hsort' hchain'
          _ ≤ p.2 := hpq

/-- On a strictly sorted table whose ordinates never increase from one point
to the next, `interp` is antitone in the query. -/
lemma interp_anti (t1 t2 : ℚ) (h12 : t1 ≤ t2) : ∀ (l : List (ℚ × ℚ)),
    List.Pairwise (fun a b => a.1 < b.1) l →
    List.Chain' (fun a b => b.2 ≤ a.2) l →
    interp t2 l ≤ interp t1 l := by
  intro l
  induction l with
  | nil => intro _ _; exact le_of_eq rfl
  | cons p l' ih =>
    intro hsort hchain
    cases l' with
    | nil => exact le_of_eq rfl
    | cons q rest =>
      obtain ⟨hpq, hchain'⟩ := List.chain'_cons.mp hchain
      obtain ⟨hall, hsort'⟩ := List.pairwise_cons.mp hsort
      have hpq1 : p.1 < q.1 := hall q (by simp)
      have hs : (q.2 - p.2) / (q.1 - p.1) ≤ 0 :=
        div_nonpos_of_nonpos_of_nonneg (by linarith) (by linarith)
      rcases le_or_lt t1 p.1 with h1p | h1p
      · rw [interp_le_first t1 p _ h1p]
        exact interp_le_head t2 _ p hsort hchain
      · have h2p : p.1 < t2 := lt_of_lt_of_le h1p h12
        rcases le_or_lt t2 q.1 with h2q | h2q
        · have h1q : t1 ≤ q.1 := le_trans h12 h2q
          simp only [interp]
          rw [if_neg (not_le.mpr h2p), if_pos h2q, if_neg (not_le.mpr h1p),
            if_pos h1q, mul_div_assoc, mul_div_assoc]
          have := mul_le_mul_of_nonpos_right (by linarith :
            t1 - p.1 ≤ t2 - p.1) hs
          linarith
        · rcases le_or_lt t1 q.1 with h1q | h1q
          · simp only [interp]
            rw [if_neg (not_le.mpr h2p), if_neg (not_le.mpr h2q),
              if_neg (not_le.mpr h1p), if_pos h1q, mul_div_assoc]
            have hq2 : p.2 + (q.1 - p.1) * ((q.2 - p.2) / (q.1 - p.1)) = q.2 := by
              have hne : q.1 - p.1 ≠ 0 := ne_of_gt (by linarith)
              field_simp
            have hmono := mul_le_mul_of_nonpos_right (by linarith :
              t1 - p.1 ≤ q.1 - p.1) hs
            have htail : interp t2 (q :: rest) ≤ q.2 :=
              interp_le_head t2 _ q hsort' hchain'
            linarith
          · simp only [interp]
            rw [if_neg (not_le.mpr h2p), if_neg (not_le.mpr h2q),
              if_neg (not_le.mpr h1p), if_neg (not_le.mpr h1q)]
            exact ih hsort' hchain'

/-! ## Embedding of `air_humidity.py`

Python float division raises `ZeroDivisionError` when the denominator is
zero, and `math.log` raises `ValueError: math domain error` on a non-positive
argument, so both are embedded as `Option`-valued operations; the `assert` in
`water_p_sat` (raising `AssertionError`, the "DomainError" of the spec) is an
`if` guard returning `none`. -/

/-- Python float division `a / b`: `ZeroDivisionError` when `b == 0`. -/
noncomputable def fdiv (a b : ℝ) : Option ℝ :=
  if b = 0 then none else some (a / b)

/-- Python `math.log x`: `ValueError` (math domain error) when `x ≤ 0`. -/
noncomputable def mlog (x : ℝ) : Option ℝ :=
  if x ≤ 0 then none else some (Real.log x)

/-- `water_p_sat(t)`: saturated water vapour pressure in hPa by the Magnus
formula `C1 * exp((C2*t)/(C3+t))`, guarded by
`assert -45 <= t <= 60`. -/
noncomputable def water_p_sat (t : ℝ) : Option ℝ :=
  if -45 ≤ t ∧ t ≤ 60 then
    (fdiv (17.62 * t) (243.12 + t)).map (fun e => 6.112 * Real.exp e)
  else none

/-- `air_p_w(rh, t)`: partial pressure of water, `rh/100.0 * water_p_sat(t)`. -/
noncomputable def air_p_w (rh t : ℝ) : Option ℝ := do
  let r ← fdiv rh 100
  let ps ← water_p_sat t
  pure (r * ps)

/-- `air_dew_point_pw(p_w)`: dew point temperature from the water partial
pressure, `C3 * log(p_w/C1) / (C2 - log(p_w/C1))` (inverse Magnus formula). -/
noncomputable def air_dew_point_pw (p_w : ℝ) : Option ℝ := do
  let x ← fdiv p_w 6.112
  let L ← mlog x
  fdiv (243.12 * L) (17.62 - L)

/-- `air_dew_point(rh, t)`: dew point from relative humidity,
`air_dew_point_pw(air_p_w(rh, t))`. -/
noncomputable def air_dew_point (rh t : ℝ) : Option ℝ := do
  let pw ← air_p_w rh t
  air_dew_point_pw pw

/-- `air_abs_hum_vol(rh, t)`: per-volume absolute humidity in g/m³,
`1E5 * M_water / R_gas * air_p_w(rh, t) / (t + T_zero)`. -/
noncomputable def air_abs_hum_vol (rh t : ℝ) : Option ℝ := do
  let a ← fdiv (1e5 * 18.016) 8314.3
  let pw ← air_p_w rh t
  fdiv (a * pw) (t + 273.15)

/-- `air_x_w(rh, t, p)`: water mass fraction in g/kg,
`1000 * M_water / (M_water + (p/air_p_w(rh, t) - 1) * M_dry_air)`.
The Python default parameter is `p=1013`, see `air_x_w_default`. -/
noncomputable def air_x_w (rh t p : ℝ) : Option ℝ := do
  let pw ← air_p_w rh t
  let r ← fdiv p pw
  fdiv (1000 * 18.016) (18.016 + (r - 1) * 28.9644)

/-- `air_x_w(rh, t)` with the default pressure argument `p=1013` hPa. -/
noncomputable def air_x_w_default (rh t : ℝ) : Option ℝ := air_x_w rh t 1013

/-! ## Evaluation lemmas for the humid-air functions -/

/-- Inside the asserted range, `water_p_sat` returns the Magnus formula. -/
lemma water_p_sat_of_mem (t : ℝ) (h1 : -45 ≤ t) (h2 : t ≤ 60) :
    water_p_sat t = some (6.112 * Real.exp (17.62 * t / (243.12 + t))) := by
  have hd : (243.12 : ℝ) + t ≠ 0 := ne_of_gt (by linarith)
  unfold water_p_sat fdiv
  rw [if_pos ⟨h1, h2⟩, if_neg hd]
  rfl

/-- Outside the asserted range, `water_p_sat` fails. -/
lemma water_p_sat_of_not_mem (t : ℝ) (h : ¬(-45 ≤ t ∧ t ≤ 60)) :
    water_p_sat t = none := by
  unfold water_p_sat
  rw [if_neg h]

/-- Inside the Magnus range, `air_p_w` returns `rh/100` times the saturation
pressure. -/
lemma air_p_w_of_mem (rh t : ℝ) (h1 : -45 ≤ t) (h2 : t ≤ 60) :
    air_p_w rh t =
      some (rh / 100 * (6.112 * Real.exp (17.62 * t / (243.12 + t)))) := by
  unfold air_p_w fdiv
  rw [if_neg (by norm_num : ¬(100 : ℝ) = 0), water_p_sat_of_mem t h1 h2]
  rfl

/-- C1: for every `t` with `-45 ≤ t ≤ 60`, `water_p_sat(t)` returns
`6.112 * exp(17.62*t / (243.12 + t))` (hPa), and for every `t` outside that
interval the call fails with a domain error instead of extrapolating. -/
theorem water_p_sat_magnus_and_domain (t : ℝ) :
    (-45 ≤ t → t ≤ 60 →
      water_p_sat t = some (6.112 * Real.exp (17.62 * t / (243.12 + t)))) ∧
    (¬(-45 ≤ t ∧ t ≤ 60) → water_p_sat t = none) :=
  ⟨fun h1 h2 => water_p_sat_of_mem t h1 h2, fun h => water_p_sat_of_not_mem t h⟩

/-- Witness for C1 at `t = 20` (in range) and `t = 61` (out of range). -/
theorem water_p_sat_magnus_and_domain_witness :
    water_p_sat 20 = some (6.112 * Real.exp (17.62 * 20 / (243.12 + 20))) ∧
    water_p_sat 61 = none :=
  ⟨(water_p_sat_magnus_and_domain 20).1 (by norm_num) (by norm_num),
   (water_p_sat_magnus_and_domain 61).2 (by norm_num)⟩

/-- The Magnus exponent `17.62*t/(243.12+t)` is strictly increasing for
`t > -243.12`. -/
lemma magnus_exponent_strictMono (t1 t2 : ℝ) (h1 : -45 ≤ t1) (h12 : t1 < t2) :
    17.62 * t1 / (243.12 + t1) < 17.62 * t2 / (243.12 + t2) := by
  have d1 : (0 : ℝ) < 243.12 + t1 := by linarith
  have d2 : (0 : ℝ) < 243.12 + t2 := by linarith
  rw [div_lt_div_iff₀ d1 d2]
  nlinarith

/-- C6: on `[-45, 60]` the saturation pressure is positive, and it is
strictly increasing there: `t1 < t2` gives `water_p_sat t1 < water_p_sat t2`. -/
theorem water_p_sat_pos_and_strictMono (t t1 t2 : ℝ)
    (ht1 : -45 ≤ t) (ht2 : t ≤ 60)
    (h1 : -45 ≤ t1) (h12 : t1 < t2) (h2 : t2 ≤ 60) :
    (∃ v, water_p_sat t = some v ∧ 0 < v) ∧
    (∃ v1 v2, water_p_sat t1 = some v1 ∧ water_p_sat t2 = some v2 ∧ v1 < v2) := by
  refine ⟨⟨6.112 * Real.exp (17.62 * t / (243.12 + t)),
      water_p_sat_of_mem t ht1 ht2, by positivity⟩,
    ⟨6.112 * Real.exp (17.62 * t1 / (243.12 + t1)),
     6.112 * Real.exp (17.62 * t2 / (243.12 + t2)),
     water_p_sat_of_mem t1 h1 (by linarith),
     water_p_sat_of_mem t2 (by linarith) h2, ?_⟩⟩
  have := Real.exp_lt_exp.mpr (magnus_exponent_strictMono t1 t2 h1 h12)
  nlinarith [Real.exp_pos (17.62 * t1 / (243.12 + t1))]

/-- Witness for C6 at `t = 20`, `t1 = 0`, `t2 = 10`. -/
theorem water_p_sat_pos_and_strictMono_witness :
    (∃ v, water_p_sat 20 = some v ∧ 0 < v) ∧
    (∃ v1 v2, water_p_sat 0 = some v1 ∧ water_p_sat 10 = some v2 ∧ v1 < v2) :=
  water_p_sat_pos_and_strictMono 20 0 10 (by norm_num) (by norm_num)
    (by norm_num) (by norm_num) (by norm_num)

/-- C4: with `rh = 0` the partial pressure is zero and `air_x_w` fails with
the division-by-zero domain error, for every in-range `t` and every `p`. -/
theorem air_x_w_zero_rh_fails (t p : ℝ) (h1 : -45 ≤ t) (h2 : t ≤ 60) :
    air_p_w 0 t = some 0 ∧ air_x_w 0 t p = none := by
  have hpw : air_p_w 0 t = some 0 := by
    rw [air_p_w_of_mem 0 t h1 h2]
    norm_num
  refine ⟨hpw, ?_⟩
  unfold air_x_w fdiv
  rw [hpw]
  simp

/-- Witness for C4 at `t = 20`, `p = 1013`. -/
theorem air_x_w_zero_rh_fails_witness :
    air_p_w 0 20 = some 0 ∧ air_x_w 0 20 1013 = none :=
  air_x_w_zero_rh_fails 20 1013 (by norm_num) (by norm_num)

/-- C9: below absolute zero the humidity computation fails (the Magnus
assert fires first, since `t ≤ -273.15 < -45`), and conversely a successful
call guarantees a positive absolute temperature, so the division by
`t + 273.15` never executes with a zero or negative denominator. -/
theorem air_abs_hum_vol_absolute_zero (rh t : ℝ) :
    (t + 273.15 ≤ 0 → air_abs_hum_vol rh t = none) ∧
    (∀ v, air_abs_hum_vol rh t = some v → 0 < t + 273.15) := by
  have hkey : t + 273.15 ≤ 0 → air_abs_hum_vol rh t = none := by
    intro h
    have hps : water_p_sat t = none :=
      water_p_sat_of_not_mem t (by intro hc; linarith [hc.1])
    unfold air_abs_hum_vol air_p_w fdiv
    rw [if_neg (by norm_num : ¬(8314.3 : ℝ) = 0),
      if_neg (by norm_num : ¬(100 : ℝ) = 0), hps]
    rfl
  refine ⟨hkey, fun v hv => ?_⟩
  by_contra hc
  rw [hkey (by linarith [not_lt.mp hc])] at hv
  exact Option.noConfusion hv

/-- Witness for C9 at `rh = 50`, `t = -300`. -/
theorem air_abs_hum_vol_absolute_zero_witness :
    air_abs_hum_vol 50 (-300) = none :=
  (air_abs_hum_vol_absolute_zero 50 (-300)).1 (by norm_num)

/-- C3 (amended): for `p_w ≤ 0` the call fails with the math domain error and
never silently returns a value; for `p_w > 0` it returns the inverse-Magnus
formula except at the single point where `ln(p_w/6.112) = 17.62`
(i.e. `p_w = 6.112·e^17.62`), where the zero denominator makes the division
fail instead of returning a value. -/
theorem air_dew_point_pw_spec (p_w : ℝ) :
    (p_w ≤ 0 → air_dew_point_pw p_w = none) ∧
    (0 < p_w → Real.log (p_w / 6.112) ≠ 17.62 →
      air_dew_point_pw p_w =
        some (243.12 * Real.log (p_w / 6.112) /
          (17.62 - Real.log (p_w / 6.112)))) := by
  constructor
  · intro h
    have hc : p_w / 6.112 ≤ 0 := div_nonpos_of_nonpos_of_nonneg h (by norm_num)
    simp [air_dew_point_pw, fdiv, mlog, hc, (by norm_num : (6.112 : ℝ) ≠ 0)]
  · intro hpos hne
    have hx : 0 < p_w / 6.112 := by positivity
    have hd : 17.62 - Real.log (p_w / 6.112) ≠ 0 := fun h0 => hne (by linarith)
    simp [air_dew_point_pw, fdiv, mlog, not_le.mpr hx, hd,
      (by norm_num : (6.112 : ℝ) ≠ 0)]

/-- Counterexample to C3 as stated: `p_w = 6.112·e^17.62` is positive, yet
`air_dew_point_pw` fails there (`ZeroDivisionError`) instead of returning the
formula value. -/
theorem air_dew_point_pw_singularity :
    (0 : ℝ) < 6.112 * Real.exp 17.62 ∧
    air_dew_point_pw (6.112 * Real.exp 17.62) = none := by
  refine ⟨by positivity, ?_⟩
  have hx : (6.112 : ℝ) * Real.exp 17.62 / 6.112 = Real.exp 17.62 := by
    rw [mul_comm, mul_div_assoc, div_self (by norm_num : (6.112 : ℝ) ≠ 0),
      mul_one]
  simp [air_dew_point_pw, fdiv, mlog, hx, (by norm_num : (6.112 : ℝ) ≠ 0),
    not_le.mpr (Real.exp_pos (17.62 : ℝ)), Real.log_exp]

/-- Witness for the amended C3 at `p_w = -1` (failure side) and
`p_w = 6.112` (success side, where `ln(6.112/6.112) = 0 ≠ 17.62`). -/
theorem air_dew_point_pw_spec_witness :
    air_dew_point_pw (-1) = none ∧
    air_dew_point_pw 6.112 =
      some (243.12 * Real.log ((6.112 : ℝ) / 6.112) /
        (17.62 - Real.log ((6.112 : ℝ) / 6.112))) :=
  ⟨(air_dew_point_pw_spec (-1)).1 (by norm_num),
   (air_dew_point_pw_spec 6.112).2 (by norm_num)
     (by
       rw [div_self (by norm_num : (6.112 : ℝ) ≠ 0), Real.log_one]
       norm_num)⟩

/-- The Magnus exponent stays strictly below the constant `C2 = 17.62`. -/
lemma magnus_exponent_lt (t : ℝ) (h1 : -45 ≤ t) :
    17.62 * t / (243.12 + t) < 17.62 := by
  have hd : (0 : ℝ) < 243.12 + t := by linarith
  rw [div_lt_iff₀ hd]
  nlinarith

/-- The inverse-Magnus map `L ↦ 243.12*L/(17.62 - L)` is monotone below the
pole at `L = 17.62`. -/
lemma inverse_magnus_mono (L u : ℝ) (hLu : L ≤ u) (hu : u < 17.62) :
    243.12 * L / (17.62 - L) ≤ 243.12 * u / (17.62 - u) := by
  have h1 : (0 : ℝ) < 17.62 - u := by linarith
  have h2 : (0 : ℝ) < 17.62 - L := by linarith
  rw [div_le_div_iff₀ h2 h1]
  nlinarith

/-- The inverse-Magnus map recovers the temperature from the Magnus
exponent exactly. -/
lemma inverse_magnus_exact (t : ℝ) (h1 : -45 ≤ t) :
    243.12 * (17.62 * t / (243.12 + t)) /
      (17.62 - 17.62 * t / (243.12 + t)) = t := by
  have hd : (0 : ℝ) < 243.12 + t := by linarith
  have hne : (243.12 : ℝ) + t ≠ 0 := ne_of_gt hd
  have hrw : 17.62 - 17.62 * t / (243.12 + t) = 17.62 * 243.12 / (243.12 + t) := by
    field_simp
    ring
  have hne2 : 17.62 - 17.62 * t / (243.12 + t) ≠ 0 := by
    rw [hrw]
    positivity
  rw [div_eq_iff hne2]
  field_simp
  ring

/-- Full evaluation of `air_dew_point` for positive humidity not above 100 %
and an in-range temperature. -/
lemma air_dew_point_eval (rh t : ℝ) (hrh : 0 < rh) (hle : rh ≤ 100)
    (h1 : -45 ≤ t) (h2 : t ≤ 60) :
    air_dew_point rh t =
      some (243.12 * (Real.log (rh / 100) + 17.62 * t / (243.12 + t)) /
        (17.62 - (Real.log (rh / 100) + 17.62 * t / (243.12 + t)))) := by
  have hru : (0 : ℝ) < rh / 100 := by positivity
  have hlognp : Real.log (rh / 100) ≤ 0 :=
    Real.log_nonpos (le_of_lt hru) (by linarith)
  have hu : 17.62 * t / (243.12 + t) < 17.62 := magnus_exponent_lt t h1
  have hxpos : 0 < rh / 100 * Real.exp (17.62 * t / (243.12 + t)) :=
    mul_pos hru (Real.exp_pos _)
  have hpw6 : rh / 100 * (6.112 * Real.exp (17.62 * t / (243.12 + t))) / 6.112
      = rh / 100 * Real.exp (17.62 * t / (243.12 + t)) := by
    field_simp
    ring
  have hlogeq : Real.log (rh / 100 * Real.exp (17.62 * t / (243.12 + t)))
      = Real.log (rh / 100) + 17.62 * t / (243.12 + t) := by
    rw [Real.log_mul (ne_of_gt hru) (Real.exp_ne_zero _), Real.log_exp]
  have hdne : 17.62 - (Real.log (rh / 100) + 17.62 * t / (243.12 + t)) ≠ 0 := by
    have : Real.log (rh / 100) + 17.62 * t / (243.12 + t) < 17.62 := by linarith
    linarith
  simp [air_dew_point, air_dew_point_pw, fdiv, mlog,
    air_p_w_of_mem rh t h1 h2, (by norm_num : (6.112 : ℝ) ≠ 0), hpw6,
    not_le.mpr hxpos, hlogeq, hdne]

/-- C5: for `rh ∈ (0, 100]` and an in-range temperature the dew point never
exceeds the temperature, and at `rh = 100` it equals the temperature within
`1e-6` (in fact exactly). -/
theorem air_dew_point_le_temp (rh t : ℝ) (h0 : 0 < rh) (h100 : rh ≤ 100)
    (ht1 : -45 ≤ t) (ht2 : t ≤ 60) :
    (∃ d, air_dew_point rh t = some d ∧ d ≤ t) ∧
    (∃ d, air_dew_point 100 t = some d ∧ |d - t| ≤ 1e-6) := by
  have hu := magnus_exponent_lt t ht1
  constructor
  · refine ⟨_, air_dew_point_eval rh t h0 h100 ht1 ht2, ?_⟩
    have hlog : Real.log (rh / 100) ≤ 0 :=
      Real.log_nonpos (by positivity) (by linarith)
    have hL : Real.log (rh / 100) + 17.62 * t / (243.12 + t)
        ≤ 17.62 * t / (243.12 + t) := by linarith
    calc 243.12 * (Real.log (rh / 100) + 17.62 * t / (243.12 + t)) /
          (17.62 - (Real.log (rh / 100) + 17.62 * t / (243.12 + t)))
        ≤ 243.12 * (17.62 * t / (243.12 + t)) /
          (17.62 - 17.62 * t / (243.12 + t)) :=
          inverse_magnus_mono _ _ hL hu
      _ = t := inverse_magnus_exact t ht1
  · have hlog1 : Real.log ((100 : ℝ) / 100) = 0 := by norm_num
    refine ⟨_, air_dew_point_eval 100 t (by norm_num) (by norm_num) ht1 ht2, ?_⟩
    rw [hlog1, zero_add, inverse_magnus_exact t ht1]
    norm_num

/-- Witness for C5 at `rh = 50`, `t = 20`. -/
theorem air_dew_point_le_temp_witness :
    (∃ d, air_dew_point 50 20 = some d ∧ d ≤ 20) ∧
    (∃ d, air_dew_point 100 20 = some d ∧ |d - 20| ≤ 1e-6) :=
  air_dew_point_le_temp 50 20 (by norm_num) (by norm_num) (by norm_num)
    (by norm_num)

/-! ## Table invariants -/

lemma c_th_water_table_sorted :
    List.Pairwise (fun a b : ℚ × ℚ => a.1 < b.1) c_th_water_table := by
  haveI : IsTrans (ℚ × ℚ) (fun a b => a.1 < b.1) :=
    ⟨fun a b c h1 h2 => lt_trans h1 h2⟩
  rw [← List.chain'_iff_pairwise]
  norm_num [c_th_water_table, List.chain'_cons]

lemma rho_glykol60_table_sorted :
    List.Pairwise (fun a b : ℚ × ℚ => a.1 < b.1) rho_glykol60_table := by
  haveI : IsTrans (ℚ × ℚ) (fun a b => a.1 < b.1) :=
    ⟨fun a b c h1 h2 => lt_trans h1 h2⟩
  rw [← List.chain'_iff_pairwise]
  norm_num [rho_glykol60_table, List.chain'_cons]

lemma c_th_glykol60_table_sorted :
    List.Pairwise (fun a b : ℚ × ℚ => a.1 < b.1) c_th_glykol60_table := by
  haveI : IsTrans (ℚ × ℚ) (fun a b => a.1 < b.1) :=
    ⟨fun a b c h1 h2 => lt_trans h1 h2⟩
  rw [← List.chain'_iff_pairwise]
  norm_num [c_th_glykol60_table, List.chain'_cons]

/-- Adjacent density values of the glycol table strictly decrease. -/
lemma rho_glykol60_table_strict_desc :
    List.Chain' (fun p q : ℚ × ℚ => q.2 < p.2) rho_glykol60_table := by
  norm_num [rho_glykol60_table, List.chain'_cons]

/-- C2: each table-based function clamps to the first ordinate below the
table, clamps to the last ordinate above it, and on every bracketing
interval `xᵢ ≤ theta ≤ xᵢ₊₁` of adjacent table points returns the linear
interpolant `yᵢ + (theta-xᵢ)*(yᵢ₊₁-yᵢ)/(xᵢ₊₁-xᵢ)`. -/
theorem table_interp_policy (theta : ℚ) :
    (theta ≤ 0 → c_th_water theta = 4217.7) ∧
    (100 ≤ theta → c_th_water theta = 4216.0) ∧
    (∀ pre p q post, c_th_water_table = pre ++ p :: q :: post →
      p.1 ≤ theta → theta ≤ q.1 →
      c_th_water theta = p.2 + (theta - p.1) * (q.2 - p.2) / (q.1 - p.1)) ∧
    (theta ≤ -40 → rho_glykol60 theta = 1.120010) ∧
    (110 ≤ theta → rho_glykol60 theta = 1.022522) ∧
    (∀ pre p q post, rho_glykol60_table = pre ++ p :: q :: post →
      p.1 ≤ theta → theta ≤ q.1 →
      rho_glykol60 theta = p.2 + (theta - p.1) * (q.2 - p.2) / (q.1 - p.1)) ∧
    (theta ≤ -40 → c_th_glykol60 theta = 2703.30) ∧
    (105 ≤ theta → c_th_glykol60 theta = 3517.87) ∧
    (∀ pre p q post, c_th_glykol60_table = pre ++ p :: q :: post →
      p.1 ≤ theta → theta ≤ q.1 →
      c_th_glykol60 theta = p.2 + (theta - p.1) * (q.2 - p.2) / (q.1 - p.1)) := by
  refine ⟨fun h => ?_, fun h => ?_, fun pre p q post heq h1 h2 => ?_,
    fun h => ?_, fun h => ?_, fun pre p q post heq h1 h2 => ?_,
    fun h => ?_, fun h => ?_, fun pre p q post heq h1 h2 => ?_⟩
  · exact interp_le_first theta (0, 4217.7) (c_th_water_table.drop 1) h
  · exact interp_ge_last theta c_th_water_table.dropLast (100, 4216.0)
      c_th_water_table_sorted h
  · unfold c_th_water
    rw [heq]
    exact interp_bracket theta pre p q post
      (heq ▸ c_th_water_table_sorted) h1 h2
  · exact interp_le_first theta (-40, 1.120010) (rho_glykol60_table.drop 1) h
  · exact interp_ge_last theta rho_glykol60_table.dropLast (110, 1.022522)
      rho_glykol60_table_sorted h
  · unfold rho_glykol60
    rw [heq]
    exact interp_bracket theta pre p q post
      (heq ▸ rho_glykol60_table_sorted) h1 h2
  · exact interp_le_first theta (-40, 2703.30) (c_th_glykol60_table.drop 1) h
  · exact interp_ge_last theta c_th_glykol60_table.dropLast (105, 3517.87)
      c_th_glykol60_table_sorted h
  · unfold c_th_glykol60
    rw [heq]
    exact interp_bracket theta pre p q post
      (heq ▸ c_th_glykol60_table_sorted) h1 h2

/-- Witness for C2: clamping below/above and one interior bracketing
interval for each of the three table functions, at concrete queries. -/
theorem table_interp_policy_witness :
    (c_th_water (-5) = 4217.7 ∧ c_th_water 105 = 4216.0 ∧
      c_th_water 5 = 4217.7 + (5 - 0) * (4192.2 - 4217.7) / (10 - 0)) ∧
    (rho_glykol60 (-45) = 1.120010 ∧ rho_glykol60 115 = 1.022522 ∧
      rho_glykol60 5 = 1.096879 + (5 - 0) * (1.090945 - 1.096879) / (10 - 0)) ∧
    (c_th_glykol60 (-45) = 2703.30 ∧ c_th_glykol60 110 = 3517.87 ∧
      c_th_glykol60 2 = 3026.66 + (2 - 0) * (3059.85 - 3026.66) / (5 - 0)) :=
  ⟨⟨(table_interp_policy (-5)).1 (by norm_num),
    (table_interp_policy 105).2.1 (by norm_num),
    (table_interp_policy 5).2.2.1 [] (0, 4217.7) (10, 4192.2)
      (c_th_water_table.drop 2) rfl (by norm_num) (by norm_num)⟩,
   ⟨(table_interp_policy (-45)).2.2.2.1 (by norm_num),
    (table_interp_policy 115).2.2.2.2.1 (by norm_num),
    (table_interp_policy 5).2.2.2.2.2.1 (rho_glykol60_table.take 4)
      (0, 1.096879) (10, 1.090945) (rho_glykol60_table.drop 6) rfl
      (by norm_num) (by norm_num)⟩,
   ⟨(table_interp_policy (-45)).2.2.2.2.2.2.1 (by norm_num),
    (table_interp_policy 110).2.2.2.2.2.2.2.1 (by norm_num),
    (table_interp_policy 2).2.2.2.2.2.2.2.2 (c_th_glykol60_table.take 8)
      (0, 3026.66) (5, 3059.85) (c_th_glykol60_table.drop 10) rfl
      (by norm_num) (by norm_num)⟩⟩

/-- C7: the water heat-capacity table endpoints are returned exactly, and
queries outside the table clamp to the boundary values. -/
theorem c_th_water_endpoints :
    c_th_water 0 = 4217.7 ∧ c_th_water 100 = 4216.0 ∧
    c_th_water (-10) = 4217.7 ∧ c_th_water 150 = 4216.0 := by
  refine ⟨?_, ?_, ?_, ?_⟩ <;> norm_num [c_th_water, c_th_water_table, interp]

/-- C8: `rho_glykol60` is monotonically decreasing on the tabulated range
`[-40, 110]`, and every adjacent pair of the 16 tabulated densities is
strictly decreasing. -/
theorem rho_glykol60_decreasing (t1 t2 : ℚ) (h1 : -40 ≤ t1) (h12 : t1 < t2)
    (h2 : t2 ≤ 110) :
    rho_glykol60 t2 ≤ rho_glykol60 t1 ∧
    List.Chain' (fun p q : ℚ × ℚ => q.2 < p.2) rho_glykol60_table :=
  ⟨interp_anti t1 t2 (le_of_lt h12) rho_glykol60_table
      rho_glykol60_table_sorted
      (rho_glykol60_table_strict_desc.imp fun _ _ h => le_of_lt h),
   rho_glykol60_table_strict_desc⟩

/-- Witness for C8 at `t1 = 0`, `t2 = 10`. -/
theorem rho_glykol60_decreasing_witness :
    rho_glykol60 10 ≤ rho_glykol60 0 ∧
    List.Chain' (fun p q : ℚ × ℚ => q.2 < p.2) rho_glykol60_table :=
  rho_glykol60_decreasing 0 10 (by norm_num) (by norm_num) (by norm_num)

/-- C10: the denominator polynomial of `rho_water` vanishes exactly at
`theta = -1000/16.8872`; the function performs the unguarded division
`num/denom` there instead of failing with a tagged domain error, and for
every other `theta` the denominator (hence the ratio) is a nonzero finite
rational. -/
theorem rho_water_denominator_root :
    rho_water_denom (-1000 / 16.8872) = 0 ∧
    (∀ theta : ℚ, rho_water theta = rho_water_num theta / rho_water_denom theta) ∧
    (∀ theta : ℚ, theta ≠ -1000 / 16.8872 → rho_water_denom theta ≠ 0) := by
  refine ⟨by norm_num [rho_water_denom], fun theta => rfl,
    fun theta hne h0 => hne ?_⟩
  have hlin : (1.6887200e1 : ℚ) * theta + 1000.0 = 0 := h0
  rw [eq_div_iff (by norm_num : (16.8872 : ℚ) ≠ 0)]
  linarith

/-- Witness for C10: the root is the only zero, e.g. the denominator does
not vanish at `theta = 0`. -/
theorem rho_water_denominator_root_witness :
    rho_water_denom 0 ≠ 0 ∧ rho_water_denom (-1000 / 16.8872) = 0 :=
  ⟨rho_water_denominator_root.2.2 0 (by norm_num),
   rho_water_denominator_root.1⟩

end UtilLib
